import Mathlib

/-!
Shallow embedding of `src/backend/services/queue.py` (the job orchestration
core of pthmn/ytdlstem): the `Job` record, the in-memory registry
(`jobs: dict[str, Job]`, modelled as an association list with Python dict
insertion semantics), the FIFO admission queue, the worker loop `_worker`,
`create_job`, `get_job`, `get_queue_position`, and the reaper
`cleanup_old_jobs`.

Python floats used as timestamps (`time.time()`) and progress values are
modelled as rationals; exact real-valued arithmetic matches the claims,
none of which depends on float rounding.

Handlers (download / stems / karaoke feature code) are external to the
core: the registered-handler map `_job_handlers` is modelled as a fixed
membership predicate `hsm : String → Bool` (registration happens at
module-import time, before workers start), and a handler invocation is modelled
nondeterministically by `finishOk` / `finishFail` transitions that carry
the handler's final writes to `progress`, `message` and `result` (the
actual handlers in the repository write only those fields, never `status`).
-/

namespace Ytdlstem

inductive JobStatus where
  | queued
  | processing
  | done
  | error
deriving DecidableEq, Repr

/-- The `Job` dataclass of `queue.py`. -/
structure Job where
  id : String
  job_type : String
  params : List (String × String)
  status : JobStatus
  progress : ℚ
  message : String
  result : List (String × String)
  created_at : ℚ
  completed_at : Option ℚ
  output_dir : String
deriving DecidableEq, Repr

/-- `TEMP_DIR = os.getenv("TEMP_DIR", "/tmp/ytdlstem")`, default value. -/
def TEMP_DIR : String := "/tmp/ytdlstem"

/-- `CLEANUP_AFTER_SECONDS = int(os.getenv("CLEANUP_AFTER", "1800"))`, default. -/
def CLEANUP_AFTER_SECONDS : ℚ := 1800

/-- `output_dir = os.path.join(TEMP_DIR, job_id)`. -/
def outputDirOf (jid : String) : String := TEMP_DIR ++ "/" ++ jid

/-- Lookup in the registry, first entry with the given key
(`jobs.get(job_id)`; a Python dict has at most one entry per key). -/
def lookupJob : List (String × Job) → String → Option Job
  | [], _ => none
  | (k, j) :: rest, jid => if k = jid then some j else lookupJob rest jid

/-- `jobs[job_id] = job` with Python dict semantics: an existing key keeps
its position and gets the new value; a new key is appended. -/
def dictInsert : List (String × Job) → String → Job → List (String × Job)
  | [], jid, j => [(jid, j)]
  | (k, j') :: rest, jid, j =>
      if k = jid then (jid, j) :: rest else (k, j') :: dictInsert rest jid j

/-- In-place mutation of the record stored under a key (Python attribute
assignment on the object held in the dict). -/
def updateJob : List (String × Job) → String → (Job → Job) → List (String × Job)
  | [], _, _ => []
  | (k, j) :: rest, jid, f =>
      if k = jid then (k, f j) :: rest else (k, j) :: updateJob rest jid f

/-- The shared mutable state of the subsystem: the registry `jobs`, the
admission queue `job_queue` (FIFO list of job ids, head dequeued first),
and the set of per-job output directories existing on storage. -/
structure QState where
  jobs : List (String × Job)
  queue : List String
  dirs : List String
deriving DecidableEq, Repr

def initState : QState := { jobs := [], queue := [], dirs := [] }

/-- `get_job(job_id)`: `jobs.get(job_id)`. -/
def get_job (s : QState) (job_id : String) : Option Job :=
  lookupJob s.jobs job_id

/-- `get_queue_position(job_id)`: 0 when absent or not queued, otherwise
`1 +` the number of registry entries that are queued with strictly earlier
`created_at` (the loop in the source ranges over all of `jobs.items()`;
the job itself never satisfies the strict inequality). -/
def get_queue_position (s : QState) (job_id : String) : Nat :=
  match lookupJob s.jobs job_id with
  | none => 0
  | some job =>
      if job.status ≠ JobStatus.queued then 0
      else 1 + (s.jobs.filter (fun p =>
          decide (p.2.status = JobStatus.queued ∧
            p.2.created_at < job.created_at))).length

/-- The record built by `create_job` before it is stored. -/
def freshJob (jid jtype : String) (params : List (String × String)) (t : ℚ) : Job :=
  { id := jid
    job_type := jtype
    params := params
    status := JobStatus.queued
    progress := 0
    message := ""
    result := []
    created_at := t
    completed_at := none
    output_dir := outputDirOf jid }

/-- `os.makedirs(output_dir, exist_ok=True)`. -/
def addDir (dirs : List String) (d : String) : List String :=
  if d ∈ dirs then dirs else dirs ++ [d]

/-- `create_job(job_type, params)` at time `t`, with the 8-character
identifier `str(uuid.uuid4())[:8]` supplied by the environment: makes the
output directory, stores the record (`jobs[job_id] = job`, replacing any
record already under that key — the source performs no freshness check)
and enqueues the identifier. -/
def applyCreate (s : QState) (jid jtype : String)
    (params : List (String × String)) (t : ℚ) : QState :=
  { jobs := dictInsert s.jobs jid (freshJob jid jtype params t)
    queue := s.queue ++ [jid]
    dirs := addDir s.dirs (outputDirOf jid) }

/-- A worker dequeued an identifier that is absent from the registry:
`if not job: continue` — the item is discarded. -/
def applyDequeueSkip (s : QState) (rest : List String) : QState :=
  { s with queue := rest }

/-- A worker dequeued `jid` and claimed the job:
`job.status = PROCESSING; job.message = "Processing..."`. -/
def applyDequeueMark (s : QState) (jid : String) (rest : List String) : QState :=
  { s with
    jobs := updateJob s.jobs jid (fun j =>
      { j with status := JobStatus.processing, message := "Processing..." })
    queue := rest }

/-- No handler is registered for the claimed job's type:
`job.status = ERROR; job.message = f"No handler for job type: {job.job_type}"`.
Note: the source does NOT set `completed_at` on this path. -/
def applyNoHandler (s : QState) (jid : String) : QState :=
  { s with
    jobs := updateJob s.jobs jid (fun j =>
      { j with status := JobStatus.error,
               message := "No handler for job type: " ++ j.job_type }) }

/-- The handler returned normally at time `t` having written `result := r`:
`job.status = DONE; job.progress = 100.0; job.completed_at = time.time();
job.message = "Complete!"` — the worker overwrites whatever progress and
message the handler last wrote. -/
def applyFinishOk (s : QState) (jid : String) (t : ℚ)
    (r : List (String × String)) : QState :=
  { s with
    jobs := updateJob s.jobs jid (fun j =>
      { j with status := JobStatus.done, progress := 100,
               completed_at := some t, message := "Complete!", result := r }) }

/-- The handler raised at time `t` with description `emsg`, having last
written progress `p` and result `r` (which the worker leaves in place):
`job.status = ERROR; job.message = str(e); job.completed_at = time.time()`.
The message is stored verbatim; the source performs no truncation. -/
def applyFinishFail (s : QState) (jid : String) (t : ℚ) (emsg : String)
    (p : ℚ) (r : List (String × String)) : QState :=
  { s with
    jobs := updateJob s.jobs jid (fun j =>
      { j with status := JobStatus.error, message := emsg,
               completed_at := some t, progress := p, result := r }) }

/-- The reaper's per-job test:
`if job.completed_at and (now - job.completed_at) > CLEANUP_AFTER_SECONDS`
(a Python float is truthy iff nonzero). -/
def shouldRemove (j : Job) (now : ℚ) : Bool :=
  match j.completed_at with
  | none => false
  | some t => decide (t ≠ 0) && decide (now - t > CLEANUP_AFTER_SECONDS)

/-- One sweep of `cleanup_old_jobs` at time `now`: every record passing
`shouldRemove` is removed from the registry; for each such record
`shutil.rmtree(job.output_dir, ignore_errors=True)` is attempted, modelled
by the oracle `delOk` (deletion is best-effort and may fail). -/
def applyCleanup (s : QState) (now : ℚ) (delOk : String → Bool) : QState :=
  { jobs := s.jobs.filter (fun p => ! shouldRemove p.2 now)
    queue := s.queue
    dirs := s.dirs.filter (fun d =>
      ! (delOk d && (s.jobs.filter (fun p => shouldRemove p.2 now)).any
          (fun p => p.2.output_dir == d))) }

/-- Transition labels of the subsystem.  `finishOk` carries the handler's
last writes `p` (progress), `m` (message) and `r` (result); the worker
overwrites `p` and `m`, so they do not appear in the successor state. -/
inductive Label where
  | create (jid jtype : String) (params : List (String × String)) (t : ℚ)
  | dequeue
  | noHandler (jid : String)
  | finishOk (jid : String) (t : ℚ) (p : ℚ) (m : String)
      (r : List (String × String))
  | finishFail (jid : String) (t : ℚ) (emsg : String) (p : ℚ)
      (r : List (String × String))
  | cleanup (now : ℚ) (delOk : String → Bool)

/-- Small-step transition relation of the orchestration core, parameterised
by the handler-membership map `hsm`.  The association of a mid-execution
job to the worker that claimed it is abstracted away: any `processing` job
may take a `noHandler`/`finishOk`/`finishFail` step subject to the same
guards the source checks, which yields a superset of the real schedules
(sound for the safety properties proved below; every refutation below uses
only a schedule the real program can take). -/
inductive Step (hsm : String → Bool) : Label → QState → QState → Prop
  | create (s : QState) (jid jtype : String) (params : List (String × String))
      (t : ℚ) (hlen : jid.length = 8) :
      Step hsm (Label.create jid jtype params t) s (applyCreate s jid jtype params t)
  | dequeueSkip (s : QState) (jid : String) (rest : List String)
      (hq : s.queue = jid :: rest) (habs : lookupJob s.jobs jid = none) :
      Step hsm Label.dequeue s (applyDequeueSkip s rest)
  | dequeueMark (s : QState) (jid : String) (rest : List String) (j : Job)
      (hq : s.queue = jid :: rest) (hj : lookupJob s.jobs jid = some j) :
      Step hsm Label.dequeue s (applyDequeueMark s jid rest)
  | noHandler (s : QState) (jid : String) (j : Job)
      (hj : lookupJob s.jobs jid = some j) (hproc : j.status = JobStatus.processing)
      (hh : hsm j.job_type = false) :
      Step hsm (Label.noHandler jid) s (applyNoHandler s jid)
  | finishOk (s : QState) (jid : String) (j : Job) (t : ℚ) (p : ℚ) (m : String)
      (r : List (String × String))
      (hj : lookupJob s.jobs jid = some j) (hproc : j.status = JobStatus.processing)
      (hh : hsm j.job_type = true) :
      Step hsm (Label.finishOk jid t p m r) s (applyFinishOk s jid t r)
  | finishFail (s : QState) (jid : String) (j : Job) (t : ℚ) (emsg : String)
      (p : ℚ) (r : List (String × String))
      (hj : lookupJob s.jobs jid = some j) (hproc : j.status = JobStatus.processing)
      (hh : hsm j.job_type = true) :
      Step hsm (Label.finishFail jid t emsg p r) s (applyFinishFail s jid t emsg p r)
  | cleanup (s : QState) (now : ℚ) (delOk : String → Bool) :
      Step hsm (Label.cleanup now delOk) s (applyCleanup s now delOk)

/-- States reachable from the empty initial state. -/
inductive Reachable (hsm : String → Bool) : QState → Prop
  | init : Reachable hsm initState
  | step {s : QState} {l : Label} {s' : QState} :
      Reachable hsm s → Step hsm l s s' → Reachable hsm s'

/-- A label is collision-free in a state when, if it is a creation, the
generated identifier is fresh.  `str(uuid.uuid4())[:8]` does not guarantee
this (32 bits of randomness, no check in the source); `LabelFresh`
delimits the executions in which no collision happens to occur. -/
def LabelFresh (l : Label) (s : QState) : Prop :=
  match l with
  | Label.create jid _ _ _ => lookupJob s.jobs jid = none
  | _ => True

instance (l : Label) (s : QState) : Decidable (LabelFresh l s) :=
  match l with
  | Label.create jid _ _ _ =>
      inferInstanceAs (Decidable (lookupJob s.jobs jid = none))
  | Label.dequeue => inferInstanceAs (Decidable True)
  | Label.noHandler _ => inferInstanceAs (Decidable True)
  | Label.finishOk _ _ _ _ _ => inferInstanceAs (Decidable True)
  | Label.finishFail _ _ _ _ _ => inferInstanceAs (Decidable True)
  | Label.cleanup _ _ => inferInstanceAs (Decidable True)

/-- States reachable along collision-free executions. -/
inductive ReachableF (hsm : String → Bool) : QState → Prop
  | init : ReachableF hsm initState
  | step {s : QState} {l : Label} {s' : QState} :
      ReachableF hsm s → Step hsm l s s' → LabelFresh l s → ReachableF hsm s'

/-- The status edges of the specified state machine
`Queued → Processing → Done | Error`, reflexive steps included. -/
def StatusEdge (a b : JobStatus) : Prop :=
  a = b ∨ (a = JobStatus.queued ∧ b = JobStatus.processing) ∨
    (a = JobStatus.processing ∧ b = JobStatus.done) ∨
    (a = JobStatus.processing ∧ b = JobStatus.error)

instance (a b : JobStatus) : Decidable (StatusEdge a b) := by
  unfold StatusEdge; infer_instance

/-- The text of the worker's missing-handler message. -/
def noHandlerMsg (jtype : String) : String := "No handler for job type: " ++ jtype

/-- Keys of the registry, in dict order. -/
def keys (l : List (String × Job)) : List String := l.map Prod.fst

/-! ### Registry lemmas -/

theorem keys_nil : keys [] = [] := rfl

theorem keys_cons (k : String) (j : Job) (tl : List (String × Job)) :
    keys ((k, j) :: tl) = k :: keys tl := rfl

theorem mem_keys {l : List (String × Job)} {k : String} :
    k ∈ keys l ↔ ∃ j, (k, j) ∈ l := by
  constructor
  · intro h
    obtain ⟨⟨k0, j⟩, hmem, hfst⟩ := List.mem_map.mp h
    exact ⟨j, hfst ▸ hmem⟩
  · rintro ⟨j, hj⟩
    exact List.mem_map.mpr ⟨(k, j), hj, rfl⟩

theorem keys_filter_subset {l : List (String × Job)} {p : String × Job → Bool}
    {k : String} (h : k ∈ keys (l.filter p)) : k ∈ keys l := by
  obtain ⟨j, hj⟩ := mem_keys.mp h
  exact mem_keys.mpr ⟨j, List.mem_of_mem_filter hj⟩

theorem lookupJob_eq_none_iff (l : List (String × Job)) (k : String) :
    lookupJob l k = none ↔ k ∉ keys l := by
  induction l with
  | nil => simp [lookupJob, keys_nil]
  | cons hd tl ih =>
      obtain ⟨k0, j⟩ := hd
      by_cases h : k0 = k
      · subst h
        simp [lookupJob, keys_cons]
      · have h' : ¬ k = k0 := fun he => h he.symm
        simp [lookupJob, h, keys_cons, ih, h']

theorem mem_of_lookupJob {l : List (String × Job)} {k : String} {j : Job}
    (h : lookupJob l k = some j) : (k, j) ∈ l := by
  induction l with
  | nil => simp [lookupJob] at h
  | cons hd tl ih =>
      obtain ⟨k0, j0⟩ := hd
      by_cases hk : k0 = k
      · subst hk
        rw [lookupJob, if_pos rfl] at h
        injection h with h
        subst h
        exact List.mem_cons_self _ _
      · rw [lookupJob, if_neg hk] at h
        exact List.mem_cons_of_mem _ (ih h)

theorem lookupJob_of_mem_nodup {l : List (String × Job)} {k : String} {j : Job}
    (hnd : (keys l).Nodup) (h : (k, j) ∈ l) : lookupJob l k = some j := by
  induction l with
  | nil => simp at h
  | cons hd tl ih =>
      obtain ⟨k0, j0⟩ := hd
      rw [keys_cons, List.nodup_cons] at hnd
      rcases List.mem_cons.mp h with h1 | h1
      · injection h1 with hk hj
        subst hk
        subst hj
        rw [lookupJob, if_pos rfl]
      · have hk : k0 ≠ k := by
          intro he
          refine hnd.1 ?_
          rw [he]
          exact mem_keys.mpr ⟨j, h1⟩
        rw [lookupJob, if_neg hk]
        exact ih hnd.2 h1

theorem lookupJob_updateJob_self {l : List (String × Job)} {k : String} {j : Job}
    (f : Job → Job) (h : lookupJob l k = some j) :
    lookupJob (updateJob l k f) k = some (f j) := by
  induction l with
  | nil => simp [lookupJob] at h
  | cons hd tl ih =>
      obtain ⟨k0, j0⟩ := hd
      by_cases hk : k0 = k
      · subst hk
        rw [lookupJob, if_pos rfl] at h
        injection h with h
        subst h
        rw [updateJob, if_pos rfl, lookupJob, if_pos rfl]
      · rw [lookupJob, if_neg hk] at h
        rw [updateJob, if_neg hk, lookupJob, if_neg hk]
        exact ih h

theorem lookupJob_updateJob_other {l : List (String × Job)} {k k' : String}
    (f : Job → Job) (hne : k' ≠ k) :
    lookupJob (updateJob l k f) k' = lookupJob l k' := by
  induction l with
  | nil => rfl
  | cons hd tl ih =>
      obtain ⟨k0, j0⟩ := hd
      by_cases hk : k0 = k
      · subst hk
        have h2 : k0 ≠ k' := fun he => hne (he.symm ▸ rfl)
        rw [updateJob, if_pos rfl, lookupJob, if_neg h2, lookupJob, if_neg h2]
      · rw [updateJob, if_neg hk]
        by_cases hk' : k0 = k'
        · subst hk'
          rw [lookupJob, if_pos rfl, lookupJob, if_pos rfl]
        · rw [lookupJob, if_neg hk', lookupJob, if_neg hk']
          exact ih

theorem keys_updateJob (l : List (String × Job)) (k : String) (f : Job → Job) :
    keys (updateJob l k f) = keys l := by
  induction l with
  | nil => rfl
  | cons hd tl ih =>
      obtain ⟨k0, j0⟩ := hd
      by_cases hk : k0 = k
      · subst hk
        rw [updateJob, if_pos rfl, keys_cons, keys_cons]
      · rw [updateJob, if_neg hk, keys_cons, keys_cons, ih]

theorem mem_updateJob {l : List (String × Job)} {k : String} {j' : Job}
    {kk : String} {f : Job → Job} (h : (k, j') ∈ updateJob l kk f) :
    (k, j') ∈ l ∨ (k = kk ∧ ∃ j, (kk, j) ∈ l ∧ j' = f j) := by
  induction l with
  | nil => simp [updateJob] at h
  | cons hd tl ih =>
      obtain ⟨k0, j0⟩ := hd
      by_cases hk : k0 = kk
      · subst hk
        rw [updateJob, if_pos rfl] at h
        rcases List.mem_cons.mp h with h1 | h1
        · injection h1 with ha hb
          exact Or.inr ⟨ha, j0, List.mem_cons_self _ _, hb⟩
        · exact Or.inl (List.mem_cons_of_mem _ h1)
      · rw [updateJob, if_neg hk] at h
        rcases List.mem_cons.mp h with h1 | h1
        · exact Or.inl (h1 ▸ List.mem_cons_self _ _)
        · rcases ih h1 with h2 | ⟨h2, j, h3, h4⟩
          · exact Or.inl (List.mem_cons_of_mem _ h2)
          · exact Or.inr ⟨h2, j, List.mem_cons_of_mem _ h3, h4⟩

theorem dictInsert_of_not_mem {l : List (String × Job)} {k : String} (j : Job)
    (h : lookupJob l k = none) : dictInsert l k j = l ++ [(k, j)] := by
  induction l with
  | nil => rfl
  | cons hd tl ih =>
      obtain ⟨k0, j0⟩ := hd
      by_cases hk : k0 = k
      · rw [lookupJob, if_pos hk] at h
        exact absurd h (by simp)
      · rw [lookupJob, if_neg hk] at h
        rw [dictInsert, if_neg hk, ih h, List.cons_append]

theorem lookupJob_append_right {l₁ l₂ : List (String × Job)} {k : String}
    (h : lookupJob l₁ k = none) :
    lookupJob (l₁ ++ l₂) k = lookupJob l₂ k := by
  induction l₁ with
  | nil => rfl
  | cons hd tl ih =>
      obtain ⟨k0, j0⟩ := hd
      by_cases hk : k0 = k
      · rw [lookupJob, if_pos hk] at h
        exact absurd h (by simp)
      · rw [lookupJob, if_neg hk] at h
        rw [List.cons_append, lookupJob, if_neg hk]
        exact ih h

theorem lookupJob_filter_keep {l : List (String × Job)} {k : String} {j : Job}
    {p : String × Job → Bool}
    (h : lookupJob l k = some j) (hp : p (k, j) = true) :
    lookupJob (l.filter p) k = some j := by
  induction l with
  | nil => simp [lookupJob] at h
  | cons hd tl ih =>
      obtain ⟨k0, j0⟩ := hd
      by_cases hk : k0 = k
      · subst hk
        rw [lookupJob, if_pos rfl] at h
        injection h with h
        subst h
        simp [List.filter, hp, lookupJob]
      · rw [lookupJob, if_neg hk] at h
        cases hpc : p (k0, j0)
        · simp only [List.filter, hpc]
          exact ih h
        · simp only [List.filter, hpc, lookupJob, if_neg hk]
          exact ih h

theorem lookupJob_filter_drop {l : List (String × Job)} {k : String} {j : Job}
    {p : String × Job → Bool} (hnd : (keys l).Nodup)
    (h : lookupJob l k = some j) (hp : p (k, j) = false) :
    lookupJob (l.filter p) k = none := by
  induction l with
  | nil => simp [lookupJob] at h
  | cons hd tl ih =>
      obtain ⟨k0, j0⟩ := hd
      rw [keys_cons, List.nodup_cons] at hnd
      by_cases hk : k0 = k
      · subst hk
        rw [lookupJob, if_pos rfl] at h
        injection h with h
        subst h
        simp only [List.filter, hp]
        rw [lookupJob_eq_none_iff]
        intro hmem
        exact hnd.1 (keys_filter_subset hmem)
      · rw [lookupJob, if_neg hk] at h
        cases hpc : p (k0, j0)
        · simp only [List.filter, hpc]
          exact ih hnd.2 h
        · simp only [List.filter, hpc, lookupJob, if_neg hk]
          exact ih hnd.2 h

theorem mem_of_mem_dictInsert {l : List (String × Job)} {k k0 : String}
    {j j0 : Job} (h : (k0, j0) ∈ dictInsert l k j) :
    (k0, j0) ∈ l ∨ (k0 = k ∧ j0 = j) := by
  induction l with
  | nil =>
      rw [dictInsert] at h
      rcases List.mem_cons.mp h with h1 | h1
      · injection h1 with ha hb
        exact Or.inr ⟨ha, hb⟩
      · simp at h1
  | cons hd tl ih =>
      obtain ⟨k1, j1⟩ := hd
      by_cases hk : k1 = k
      · subst hk
        rw [dictInsert, if_pos rfl] at h
        rcases List.mem_cons.mp h with h1 | h1
        · injection h1 with ha hb
          exact Or.inr ⟨ha, hb⟩
        · exact Or.inl (List.mem_cons_of_mem _ h1)
      · rw [dictInsert, if_neg hk] at h
        rcases List.mem_cons.mp h with h1 | h1
        · exact Or.inl (h1 ▸ List.mem_cons_self _ _)
        · rcases ih h1 with h2 | h2
          · exact Or.inl (List.mem_cons_of_mem _ h2)
          · exact Or.inr h2

theorem nodup_keys_dictInsert {l : List (String × Job)} {k : String} (j : Job)
    (hnd : (keys l).Nodup) : (keys (dictInsert l k j)).Nodup := by
  induction l with
  | nil => simp [dictInsert, keys_cons, keys_nil]
  | cons hd tl ih =>
      obtain ⟨k0, j0⟩ := hd
      rw [keys_cons, List.nodup_cons] at hnd
      by_cases hk : k0 = k
      · subst hk
        rw [dictInsert, if_pos rfl, keys_cons, List.nodup_cons]
        exact hnd
      · rw [dictInsert, if_neg hk, keys_cons, List.nodup_cons]
        refine ⟨?_, ih hnd.2⟩
        intro hmem
        obtain ⟨j2, hj2⟩ := mem_keys.mp hmem
        rcases mem_of_mem_dictInsert hj2 with h | h
        · exact hnd.1 (mem_keys.mpr ⟨j2, h⟩)
        · exact hk h.1

theorem lookupJob_dictInsert_self (l : List (String × Job)) (k : String) (j : Job) :
    lookupJob (dictInsert l k j) k = some j := by
  induction l with
  | nil => simp [dictInsert, lookupJob]
  | cons hd tl ih =>
      obtain ⟨k0, j0⟩ := hd
      by_cases hk : k0 = k
      · rw [dictInsert, if_pos hk, lookupJob, if_pos rfl]
      · rw [dictInsert, if_neg hk, lookupJob, if_neg hk]
        exact ih

theorem lookupJob_dictInsert_other (l : List (String × Job)) {k k' : String}
    (j : Job) (hne : k' ≠ k) :
    lookupJob (dictInsert l k j) k' = lookupJob l k' := by
  induction l with
  | nil =>
      have h2 : ¬ k = k' := fun he => hne he.symm
      simp [dictInsert, lookupJob, h2]
  | cons hd tl ih =>
      obtain ⟨k0, j0⟩ := hd
      by_cases hk : k0 = k
      · subst hk
        have h2 : k0 ≠ k' := fun he => hne he.symm
        rw [dictInsert, if_pos rfl, lookupJob, if_neg h2, lookupJob, if_neg h2]
      · rw [dictInsert, if_neg hk]
        by_cases hk' : k0 = k'
        · subst hk'
          rw [lookupJob, if_pos rfl, lookupJob, if_pos rfl]
        · rw [lookupJob, if_neg hk', lookupJob, if_neg hk']
          exact ih

/-! ### Invariant of collision-free executions -/

/-- State invariant maintained along collision-free executions: registry
keys are distinct, queued identifiers are distinct, every queued identifier
denotes a record still in status `Queued`, each record's `output_dir` is
the one derived from its key, and `completed_at` is only ever set on a
terminal record. -/
structure InvF (s : QState) : Prop where
  nodupKeys : (keys s.jobs).Nodup
  nodupQueue : s.queue.Nodup
  queueQueued : ∀ jid ∈ s.queue, ∃ j, lookupJob s.jobs jid = some j ∧
      j.status = JobStatus.queued
  dirOk : ∀ k j, (k, j) ∈ s.jobs → j.output_dir = outputDirOf k
  compTerm : ∀ k j, (k, j) ∈ s.jobs → j.completed_at.isSome = true →
      j.status = JobStatus.done ∨ j.status = JobStatus.error

theorem invF_init : InvF initState := by
  refine ⟨?_, ?_, ?_, ?_, ?_⟩ <;> simp [initState, keys_nil]

theorem invF_step {hsm : String → Bool} {s : QState} {l : Label} {s' : QState}
    (inv : InvF s) (hstep : Step hsm l s s') (hfresh : LabelFresh l s) : InvF s' := by
  cases hstep with
  | create s jid jtype params t hlen =>
      have hfr : lookupJob s.jobs jid = none := hfresh
      have hqnotin : jid ∉ s.queue := by
        intro hmem
        obtain ⟨j, hj, _⟩ := inv.queueQueued jid hmem
        rw [hfr] at hj
        exact Option.noConfusion hj
      refine ⟨?_, ?_, ?_, ?_, ?_⟩
      · exact nodup_keys_dictInsert _ inv.nodupKeys
      · show (s.queue ++ [jid]).Nodup
        rw [List.nodup_append]
        exact ⟨inv.nodupQueue, List.nodup_singleton _, by
          intro a ha hb
          simp at hb
          subst hb
          exact hqnotin ha⟩
      · intro x hx
        rcases List.mem_append.mp hx with hx | hx
        · obtain ⟨j, hj, hq⟩ := inv.queueQueued x hx
          have hne : x ≠ jid := by
            intro he
            rw [he, hfr] at hj
            exact Option.noConfusion hj
          exact ⟨j, by rw [show (applyCreate s jid jtype params t).jobs =
              dictInsert s.jobs jid (freshJob jid jtype params t) from rfl,
              lookupJob_dictInsert_other _ _ hne]; exact hj, hq⟩
        · simp at hx
          subst hx
          exact ⟨freshJob x jtype params t, lookupJob_dictInsert_self _ _ _, rfl⟩
      · intro k j hmem
        rcases mem_of_mem_dictInsert hmem with h | ⟨hk, hj⟩
        · exact inv.dirOk k j h
        · subst hk
          subst hj
          rfl
      · intro k j hmem hsome
        rcases mem_of_mem_dictInsert hmem with h | ⟨hk, hj⟩
        · exact inv.compTerm k j h hsome
        · subst hj
          simp [freshJob] at hsome
  | dequeueSkip s jid rest hq habs =>
      refine ⟨inv.nodupKeys, ?_, ?_, inv.dirOk, inv.compTerm⟩
      · exact ((hq ▸ inv.nodupQueue : (jid :: rest).Nodup)).of_cons
      · intro x hx
        exact inv.queueQueued x (hq ▸ List.mem_cons_of_mem _ hx)
  | dequeueMark s jid rest j hq hj =>
      obtain ⟨j0, hj0, hq0⟩ := inv.queueQueued jid (hq ▸ List.mem_cons_self _ _)
      rw [hj] at hj0
      have hqj : j.status = JobStatus.queued := by
        have he : j = j0 := by injection hj0
        rw [he]
        exact hq0
      have hnodupq : (jid :: rest).Nodup := hq ▸ inv.nodupQueue
      refine ⟨?_, hnodupq.of_cons, ?_, ?_, ?_⟩
      · rw [show (applyDequeueMark s jid rest).jobs = updateJob s.jobs jid _ from rfl,
          keys_updateJob]
        exact inv.nodupKeys
      · intro x hx
        have hne : x ≠ jid := by
          intro he
          subst he
          exact (List.nodup_cons.mp hnodupq).1 hx
        obtain ⟨j1, hj1, hq1⟩ := inv.queueQueued x (hq ▸ List.mem_cons_of_mem _ hx)
        exact ⟨j1, by rw [show (applyDequeueMark s jid rest).jobs =
            updateJob s.jobs jid _ from rfl,
            lookupJob_updateJob_other _ hne]; exact hj1, hq1⟩
      · intro k j2 hmem
        rcases mem_updateJob hmem with h | ⟨hk, j3, h3, h4⟩
        · exact inv.dirOk k j2 h
        · subst hk
          subst h4
          exact inv.dirOk _ j3 h3
      · intro k j2 hmem hsome
        rcases mem_updateJob hmem with h | ⟨hk, j3, h3, h4⟩
        · exact inv.compTerm k j2 h hsome
        · exfalso
          have hj3 : j3 = j := by
            have h5 := lookupJob_of_mem_nodup inv.nodupKeys h3
            rw [hj] at h5
            injection h5.symm
          rw [h4, hj3] at hsome
          have hterm := inv.compTerm jid j (mem_of_lookupJob hj) (by simpa using hsome)
          rw [hqj] at hterm
          rcases hterm with h | h <;> exact JobStatus.noConfusion h
  | noHandler s jid j hj hproc hh =>
      refine ⟨?_, inv.nodupQueue, ?_, ?_, ?_⟩
      · rw [show (applyNoHandler s jid).jobs = updateJob s.jobs jid _ from rfl,
          keys_updateJob]
        exact inv.nodupKeys
      · intro x hx
        obtain ⟨j1, hj1, hq1⟩ := inv.queueQueued x hx
        have hne : x ≠ jid := by
          intro he
          subst he
          rw [hj] at hj1
          obtain rfl : j1 = j := by injection hj1.symm
          rw [hproc] at hq1
          exact JobStatus.noConfusion hq1
        exact ⟨j1, by rw [show (applyNoHandler s jid).jobs =
            updateJob s.jobs jid _ from rfl,
            lookupJob_updateJob_other _ hne]; exact hj1, hq1⟩
      · intro k j2 hmem
        rcases mem_updateJob hmem with h | ⟨hk, j3, h3, h4⟩
        · exact inv.dirOk k j2 h
        · subst hk
          subst h4
          exact inv.dirOk _ j3 h3
      · intro k j2 hmem hsome
        rcases mem_updateJob hmem with h | ⟨hk, j3, h3, h4⟩
        · exact inv.compTerm k j2 h hsome
        · subst h4
          exact Or.inr rfl
  | finishOk s jid j t p m r hj hproc hh =>
      refine ⟨?_, inv.nodupQueue, ?_, ?_, ?_⟩
      · rw [show (applyFinishOk s jid t r).jobs = updateJob s.jobs jid _ from rfl,
          keys_updateJob]
        exact inv.nodupKeys
      · intro x hx
        obtain ⟨j1, hj1, hq1⟩ := inv.queueQueued x hx
        have hne : x ≠ jid := by
          intro he
          subst he
          rw [hj] at hj1
          obtain rfl : j1 = j := by injection hj1.symm
          rw [hproc] at hq1
          exact JobStatus.noConfusion hq1
        exact ⟨j1, by rw [show (applyFinishOk s jid t r).jobs =
            updateJob s.jobs jid _ from rfl,
            lookupJob_updateJob_other _ hne]; exact hj1, hq1⟩
      · intro k j2 hmem
        rcases mem_updateJob hmem with h | ⟨hk, j3, h3, h4⟩
        · exact inv.dirOk k j2 h
        · subst hk
          subst h4
          exact inv.dirOk _ j3 h3
      · intro k j2 hmem hsome
        rcases mem_updateJob hmem with h | ⟨hk, j3, h3, h4⟩
        · exact inv.compTerm k j2 h hsome
        · subst h4
          exact Or.inl rfl
  | finishFail s jid j t emsg p r hj hproc hh =>
      refine ⟨?_, inv.nodupQueue, ?_, ?_, ?_⟩
      · rw [show (applyFinishFail s jid t emsg p r).jobs =
          updateJob s.jobs jid _ from rfl, keys_updateJob]
        exact inv.nodupKeys
      · intro x hx
        obtain ⟨j1, hj1, hq1⟩ := inv.queueQueued x hx
        have hne : x ≠ jid := by
          intro he
          subst he
          rw [hj] at hj1
          obtain rfl : j1 = j := by injection hj1.symm
          rw [hproc] at hq1
          exact JobStatus.noConfusion hq1
        exact ⟨j1, by rw [show (applyFinishFail s jid t emsg p r).jobs =
            updateJob s.jobs jid _ from rfl,
            lookupJob_updateJob_other _ hne]; exact hj1, hq1⟩
      · intro k j2 hmem
        rcases mem_updateJob hmem with h | ⟨hk, j3, h3, h4⟩
        · exact inv.dirOk k j2 h
        · subst hk
          subst h4
          exact inv.dirOk _ j3 h3
      · intro k j2 hmem hsome
        rcases mem_updateJob hmem with h | ⟨hk, j3, h3, h4⟩
        · exact inv.compTerm k j2 h hsome
        · subst h4
          exact Or.inr rfl
  | cleanup s now delOk =>
      refine ⟨?_, inv.nodupQueue, ?_, ?_, ?_⟩
      · exact ((List.filter_sublist s.jobs).map Prod.fst).nodup inv.nodupKeys
      · intro x hx
        obtain ⟨j, hj, hq⟩ := inv.queueQueued x hx
        have hnone : j.completed_at = none := by
          cases hsome : j.completed_at.isSome
          · exact Option.not_isSome_iff_eq_none.mp (by simp [hsome])
          · rcases inv.compTerm x j (mem_of_lookupJob hj) hsome with h | h <;>
              rw [hq] at h <;> exact JobStatus.noConfusion h
        have hsr : shouldRemove j now = false := by
          rw [shouldRemove, hnone]
        exact ⟨j, lookupJob_filter_keep hj (by rw [hsr]; rfl), hq⟩
      · intro k j hmem
        exact inv.dirOk k j (List.mem_of_mem_filter hmem)
      · intro k j hmem hsome
        exact inv.compTerm k j (List.mem_of_mem_filter hmem) hsome

theorem invF_of_reachableF {hsm : String → Bool} {s : QState}
    (h : ReachableF hsm s) : InvF s := by
  induction h with
  | init => exact invF_init
  | step _ hstep hfresh ih => exact invF_step ih hstep hfresh

/-! ### Concrete states used by witnesses and counterexamples -/

/-- Three jobs admitted in order at strictly increasing times. -/
def cState3 : QState :=
  applyCreate (applyCreate (applyCreate initState "aaaaaaaa" "download" [] 1)
    "bbbbbbbb" "download" [] 2) "cccccccc" "download" [] 3

/-- Two jobs admitted with equal creation timestamps. -/
def cTie : QState :=
  applyCreate (applyCreate initState "aaaaaaaa" "download" [] 5)
    "bbbbbbbb" "download" [] 5

/-! ### C1: queue position contract -/

/-- Reduction of `get_queue_position` at a present identifier. -/
theorem get_queue_position_eq_some {s : QState} {jid : String} {j : Job}
    (hj : lookupJob s.jobs jid = some j) :
    get_queue_position s jid =
      if j.status ≠ JobStatus.queued then 0
      else 1 + (s.jobs.filter (fun p =>
        decide (p.2.status = JobStatus.queued ∧
          p.2.created_at < j.created_at))).length := by
  unfold get_queue_position
  rw [hj]

/-- C1: for every job identifier, if the identifier is absent from the
registry or the job's status is not `Queued`, `get_queue_position` returns
0; otherwise it returns 1 plus the number of other jobs whose status is
`Queued` and whose `created_at` is strictly earlier than this job's
`created_at`. -/
theorem get_queue_position_spec (s : QState) (jid : String)
    (hnd : (keys s.jobs).Nodup) :
    (lookupJob s.jobs jid = none → get_queue_position s jid = 0) ∧
    (∀ j, lookupJob s.jobs jid = some j → j.status ≠ JobStatus.queued →
      get_queue_position s jid = 0) ∧
    (∀ j, lookupJob s.jobs jid = some j → j.status = JobStatus.queued →
      get_queue_position s jid = 1 + (s.jobs.filter (fun p =>
        decide (p.1 ≠ jid ∧ p.2.status = JobStatus.queued ∧
          p.2.created_at < j.created_at))).length) := by
  refine ⟨?_, ?_, ?_⟩
  · intro h
    unfold get_queue_position
    rw [h]
  · intro j hj hne
    rw [get_queue_position_eq_some hj, if_pos hne]
  · intro j hj hq
    rw [get_queue_position_eq_some hj, if_neg (by simp [hq])]
    congr 1
    congr 1
    apply List.filter_congr
    intro x hx
    by_cases hk : x.1 = jid
    · have hxj : x.2 = j := by
        have h5 : (x.1, x.2) ∈ s.jobs := by
          rw [Prod.mk.eta]
          exact hx
        have h6 := lookupJob_of_mem_nodup hnd h5
        rw [hk, hj] at h6
        injection h6.symm
      rw [hxj]
      simp [hk, lt_irrefl]
    · simp [hk]

/-- C1 witness: on the three-job state, hypotheses hold and, as the claim
illustrates, jobs A, B, C created in that order and all still queued have
positions 1, 2, 3. -/
theorem get_queue_position_spec_witness :
    ((keys cState3.jobs).Nodup ∧
      ((lookupJob cState3.jobs "bbbbbbbb" = none →
          get_queue_position cState3 "bbbbbbbb" = 0) ∧
        (∀ j, lookupJob cState3.jobs "bbbbbbbb" = some j →
          j.status ≠ JobStatus.queued →
          get_queue_position cState3 "bbbbbbbb" = 0) ∧
        (∀ j, lookupJob cState3.jobs "bbbbbbbb" = some j →
          j.status = JobStatus.queued →
          get_queue_position cState3 "bbbbbbbb" = 1 + (cState3.jobs.filter (fun p =>
            decide (p.1 ≠ "bbbbbbbb" ∧ p.2.status = JobStatus.queued ∧
              p.2.created_at < j.created_at))).length))) ∧
    get_queue_position cState3 "aaaaaaaa" = 1 ∧
    get_queue_position cState3 "bbbbbbbb" = 2 ∧
    get_queue_position cState3 "cccccccc" = 3 :=
  ⟨⟨by decide, get_queue_position_spec cState3 "bbbbbbbb" (by decide)⟩,
    by decide, by decide, by decide⟩

/-! ### C10: ties in creation time -/

/-- C10: two jobs that are both `Queued` with equal `created_at` receive
the same positive queue position (ties are not broken). -/
theorem queue_position_ties (s : QState) (a b : String) (ja jb : Job)
    (ha : lookupJob s.jobs a = some ja) (hb : lookupJob s.jobs b = some jb)
    (hqa : ja.status = JobStatus.queued) (hqb : jb.status = JobStatus.queued)
    (heq : ja.created_at = jb.created_at) :
    get_queue_position s a = get_queue_position s b ∧
      0 < get_queue_position s a := by
  rw [get_queue_position_eq_some ha, get_queue_position_eq_some hb,
    if_neg (by simp [hqa]), if_neg (by simp [hqb]), heq]
  exact ⟨rfl, by omega⟩

/-- C10 witness: two distinct queued jobs with equal `created_at` both
report position 1. -/
theorem queue_position_ties_witness :
    (lookupJob cTie.jobs "aaaaaaaa" = some (freshJob "aaaaaaaa" "download" [] 5) ∧
      lookupJob cTie.jobs "bbbbbbbb" = some (freshJob "bbbbbbbb" "download" [] 5) ∧
      (freshJob "aaaaaaaa" "download" [] 5).status = JobStatus.queued ∧
      (freshJob "bbbbbbbb" "download" [] 5).status = JobStatus.queued ∧
      (freshJob "aaaaaaaa" "download" [] 5).created_at =
        (freshJob "bbbbbbbb" "download" [] 5).created_at) ∧
    (get_queue_position cTie "aaaaaaaa" = get_queue_position cTie "bbbbbbbb" ∧
      0 < get_queue_position cTie "aaaaaaaa") ∧
    get_queue_position cTie "aaaaaaaa" = 1 ∧
    get_queue_position cTie "bbbbbbbb" = 1 :=
  ⟨⟨by decide, by decide, by decide, by decide, by decide⟩,
    queue_position_ties cTie "aaaaaaaa" "bbbbbbbb"
      (freshJob "aaaaaaaa" "download" [] 5) (freshJob "bbbbbbbb" "download" [] 5)
      (by decide) (by decide) (by decide) (by decide) (by decide),
    by decide, by decide⟩

/-! ### Handler map and in-flight states used by witnesses -/

/-- Handler membership as populated at startup by the routers:
exactly the type `"download"` is registered in these scenarios. -/
def hsmD : String → Bool := fun ty => ty == "download"

/-- One admitted `"download"` job. -/
def cS1 : QState := applyCreate initState "aaaaaaaa" "download" [] 1

/-- That job claimed by a worker (status `Processing`). -/
def cProc : QState := applyDequeueMark cS1 "aaaaaaaa" []

/-- The claimed job's record. -/
def cProcJob : Job :=
  { freshJob "aaaaaaaa" "download" [] 1 with
    status := JobStatus.processing, message := "Processing..." }

/-- The `"download"` job completed at time 10. -/
def cDone : QState := applyFinishOk cProc "aaaaaaaa" 10 [("file", "out.mp3")]

/-- The completed job's record. -/
def cDoneJob : Job :=
  { cProcJob with
    status := JobStatus.done,
    progress := 100,
    completed_at := some 10,
    message := "Complete!",
    result := [("file", "out.mp3")] }

/-- One admitted `"stems"` job (no handler registered under `hsmD`). -/
def cS1B : QState := applyCreate initState "aaaaaaaa" "stems" [] 1

/-- That job claimed by a worker. -/
def cProcB : QState := applyDequeueMark cS1B "aaaaaaaa" []

/-- The claimed `"stems"` job's record. -/
def cProcJobB : Job :=
  { freshJob "aaaaaaaa" "stems" [] 1 with
    status := JobStatus.processing, message := "Processing..." }

/-! ### C7: successful completion overwrites handler writes -/

/-- C7: when the handler returns normally, the worker sets
`status = Done`, `progress = 100`, `completed_at = now` and
`message = "Complete!"`, regardless of the progress `p` and message `m`
the handler last wrote (only the handler's `result` `r` survives). -/
theorem finishOk_overwrites (hsm : String → Bool) (s s' : QState) (jid : String)
    (t : ℚ) (p : ℚ) (m : String) (r : List (String × String)) (j : Job)
    (hstep : Step hsm (Label.finishOk jid t p m r) s s')
    (hj : lookupJob s.jobs jid = some j) :
    lookupJob s'.jobs jid = some { j with
      status := JobStatus.done,
      progress := 100,
      completed_at := some t,
      message := "Complete!",
      result := r } := by
  cases hstep
  case finishOk j0 hj0 hproc hh =>
    exact lookupJob_updateJob_self _ hj

/-- C7 witness: a concrete successful completion; the handler's last
writes (progress 55, message "halfway") are overwritten. -/
theorem finishOk_overwrites_witness :
    lookupJob cProc.jobs "aaaaaaaa" = some cProcJob ∧
    lookupJob (applyFinishOk cProc "aaaaaaaa" 2 [("file", "out.mp3")]).jobs
        "aaaaaaaa" =
      some { cProcJob with
        status := JobStatus.done,
        progress := 100,
        completed_at := some 2,
        message := "Complete!",
        result := [("file", "out.mp3")] } :=
  ⟨by decide,
    finishOk_overwrites hsmD cProc _ "aaaaaaaa" 2 55 "halfway"
      [("file", "out.mp3")] cProcJob
      (Step.finishOk cProc "aaaaaaaa" cProcJob 2 55 "halfway"
        [("file", "out.mp3")] (by decide) (by decide) (by decide))
      (by decide)⟩

/-! ### C6: missing handler -/

/-- C6: a claimed job whose type has no registered handler is marked
`Error` with a message naming the missing type; the queue is untouched
(the worker proceeds to the next item) and no handler-invocation step
(`finishOk`/`finishFail`) is possible for it, so no handler side effects
occur. -/
theorem noHandler_behavior (hsm : String → Bool) (s : QState) (jid : String)
    (j : Job) (hj : lookupJob s.jobs jid = some j)
    (hproc : j.status = JobStatus.processing)
    (hh : hsm j.job_type = false) :
    lookupJob (applyNoHandler s jid).jobs jid =
      some { j with
        status := JobStatus.error,
        message := noHandlerMsg j.job_type } ∧
    (applyNoHandler s jid).queue = s.queue ∧
    (applyNoHandler s jid).dirs = s.dirs ∧
    (∀ t p m r s', ¬ Step hsm (Label.finishOk jid t p m r) s s') ∧
    (∀ t emsg p r s', ¬ Step hsm (Label.finishFail jid t emsg p r) s s') := by
  refine ⟨lookupJob_updateJob_self _ hj, rfl, rfl, ?_, ?_⟩
  · intro t p m r s' hstep
    cases hstep
    case finishOk j0 hproc0 hh0 hj0 =>
      rw [hj] at hj0
      have he : j0 = j := by injection hj0.symm
      rw [he, hh] at hh0
      exact Bool.noConfusion hh0
  · intro t emsg p r s' hstep
    cases hstep
    case finishFail j0 hproc0 hh0 hj0 =>
      rw [hj] at hj0
      have he : j0 = j := by injection hj0.symm
      rw [he, hh] at hh0
      exact Bool.noConfusion hh0

/-- C6 witness: the `"stems"` job has no handler under `hsmD`; its
dispatch marks it `Error` with the descriptive message. -/
theorem noHandler_behavior_witness :
    (lookupJob cProcB.jobs "aaaaaaaa" = some cProcJobB ∧
      cProcJobB.status = JobStatus.processing ∧
      hsmD cProcJobB.job_type = false) ∧
    (lookupJob (applyNoHandler cProcB "aaaaaaaa").jobs "aaaaaaaa" =
        some { cProcJobB with
          status := JobStatus.error,
          message := noHandlerMsg cProcJobB.job_type } ∧
      (applyNoHandler cProcB "aaaaaaaa").queue = cProcB.queue ∧
      (applyNoHandler cProcB "aaaaaaaa").dirs = cProcB.dirs ∧
      (∀ t p m r s', ¬ Step hsmD (Label.finishOk "aaaaaaaa" t p m r) cProcB s') ∧
      (∀ t emsg p r s',
        ¬ Step hsmD (Label.finishFail "aaaaaaaa" t emsg p r) cProcB s')) :=
  ⟨⟨by decide, by decide, by decide⟩,
    noHandler_behavior hsmD cProcB "aaaaaaaa" cProcJobB (by decide) (by decide)
      (by decide)⟩

/-! ### C5: handler failure handling -/

/-- The truncation property the specification asserts for handler-failure
messages: a single bound limits the length of the stored message across
all reachable executions and all handler failures. -/
def FailureMessagesBounded : Prop :=
  ∃ B : Nat, ∀ (hsm : String → Bool) (s s' : QState) (jid : String) (t : ℚ)
    (emsg : String) (p : ℚ) (r : List (String × String)) (j' : Job),
    Reachable hsm s → Step hsm (Label.finishFail jid t emsg p r) s s' →
    lookupJob s'.jobs jid = some j' → j'.message.length ≤ B

/-- C5 counterexample: the worker stores `str(e)` verbatim
(`job.message = str(e)` in `_worker`), so no bound on stored failure
messages exists: for any candidate bound, a handler failure whose
description is one character longer ends up stored in full. -/
theorem failure_message_not_truncated : ¬ FailureMessagesBounded := by
  rintro ⟨B, hB⟩
  have hr1 : Reachable hsmD cS1 :=
    Reachable.step Reachable.init
      (Step.create initState "aaaaaaaa" "download" [] 1 (by decide))
  have hr2 : Reachable hsmD cProc :=
    Reachable.step hr1
      (Step.dequeueMark cS1 "aaaaaaaa" [] (freshJob "aaaaaaaa" "download" [] 1)
        (by decide) (by decide))
  have hstep : Step hsmD
      (Label.finishFail "aaaaaaaa" 2 (String.mk (List.replicate (B + 1) 'x')) 30 [])
      cProc
      (applyFinishFail cProc "aaaaaaaa" 2
        (String.mk (List.replicate (B + 1) 'x')) 30 []) :=
    Step.finishFail cProc "aaaaaaaa" cProcJob 2 _ 30 [] (by decide) (by decide)
      (by decide)
  have hlk : lookupJob (applyFinishFail cProc "aaaaaaaa" 2
      (String.mk (List.replicate (B + 1) 'x')) 30 []).jobs "aaaaaaaa" =
      some { cProcJob with
        status := JobStatus.error,
        message := String.mk (List.replicate (B + 1) 'x'),
        completed_at := some 2,
        progress := 30,
        result := [] } :=
    lookupJob_updateJob_self _ (by decide)
  have hle := hB hsmD cProc _ "aaaaaaaa" 2 _ 30 [] _ hr2 hstep hlk
  have hlen : (String.mk (List.replicate (B + 1) 'x')).length = B + 1 := by
    simp [String.length]
  rw [show ({ cProcJob with
      status := JobStatus.error,
      message := String.mk (List.replicate (B + 1) 'x'),
      completed_at := some 2,
      progress := 30,
      result := [] } : Job).message =
    String.mk (List.replicate (B + 1) 'x') from rfl, hlen] at hle
  omega

/-- C5 amended: when a handler raises, the worker records
`status = Error`, `completed_at = now` and the failure's description as
the job's message VERBATIM (no truncation is performed, so the stored
message can be arbitrarily long); nothing is propagated — the queue is
untouched and, whenever an item is queued, a further dequeue step is
enabled, so the loop continues with the next queued job. -/
theorem finishFail_records_error (hsm : String → Bool) (s s' : QState)
    (jid : String) (t : ℚ) (emsg : String) (p : ℚ)
    (r : List (String × String)) (j : Job)
    (hstep : Step hsm (Label.finishFail jid t emsg p r) s s')
    (hj : lookupJob s.jobs jid = some j) :
    lookupJob s'.jobs jid = some { j with
      status := JobStatus.error,
      message := emsg,
      completed_at := some t,
      progress := p,
      result := r } ∧
    s'.queue = s.queue ∧
    (∀ x rest, s.queue = x :: rest → ∃ s'', Step hsm Label.dequeue s' s'') := by
  cases hstep
  case finishFail j0 hj0 hproc hh =>
    refine ⟨lookupJob_updateJob_self _ hj, rfl, ?_⟩
    intro x rest hq
    cases hlk : lookupJob (applyFinishFail s jid t emsg p r).jobs x with
    | none => exact ⟨_, Step.dequeueSkip _ x rest hq hlk⟩
    | some j1 => exact ⟨_, Step.dequeueMark _ x rest j1 hq hlk⟩

/-- C5 amended witness: a concrete handler failure is recorded verbatim. -/
theorem finishFail_records_error_witness :
    lookupJob cProc.jobs "aaaaaaaa" = some cProcJob ∧
    lookupJob (applyFinishFail cProc "aaaaaaaa" 2 "boom" 30 []).jobs
        "aaaaaaaa" =
      some { cProcJob with
        status := JobStatus.error,
        message := "boom",
        completed_at := some 2,
        progress := 30,
        result := [] } :=
  ⟨by decide,
    (finishFail_records_error hsmD cProc _ "aaaaaaaa" 2 "boom" 30 [] cProcJob
      (Step.finishFail cProc "aaaaaaaa" cProcJob 2 "boom" 30 [] (by decide)
        (by decide) (by decide))
      (by decide)).1⟩

/-! ### C4: reaper removes expired terminal jobs -/

theorem outputDirOf_inj {a b : String} (h : outputDirOf a = outputDirOf b) :
    a = b := by
  have h2 := congrArg String.data h
  simp [outputDirOf, TEMP_DIR, String.data_append] at h2
  exact String.ext h2

/-- C4: a single sweep at time `now` removes every terminal job whose
`completed_at` lies more than the retention window in the past: the
record disappears from the registry (`get_job` then returns absent) for
EVERY deletion oracle — a directory-deletion failure cannot prevent
record removal — and when the deletion succeeds the output directory is
gone from storage.  (`0 < t` holds of every real `time.time()` stamp; the
sweep tests float truthiness of `completed_at`.) -/
theorem cleanup_removes_expired (s : QState) (now : ℚ) (delOk : String → Bool)
    (jid : String) (j : Job) (t : ℚ)
    (hnd : (keys s.jobs).Nodup)
    (hj : lookupJob s.jobs jid = some j)
    (hterm : j.status = JobStatus.done ∨ j.status = JobStatus.error)
    (hc : j.completed_at = some t) (hpos : 0 < t)
    (hold : now - t > CLEANUP_AFTER_SECONDS) :
    get_job (applyCleanup s now delOk) jid = none ∧
    (delOk j.output_dir = true →
      j.output_dir ∉ (applyCleanup s now delOk).dirs) := by
  have hsr : shouldRemove j now = true := by
    simp only [shouldRemove, hc]
    simp [ne_of_gt hpos, hold]
  constructor
  · exact lookupJob_filter_drop hnd hj (by simp [hsr])
  · intro hdel hmem
    have h2 := List.of_mem_filter hmem
    have hany : ((s.jobs.filter (fun p => shouldRemove p.2 now)).any
        (fun p => p.2.output_dir == j.output_dir)) = true :=
      List.any_eq_true.mpr ⟨(jid, j),
        List.mem_filter.mpr ⟨mem_of_lookupJob hj, hsr⟩, by simp⟩
    rw [hdel, hany] at h2
    simp at h2

/-- C4 witness: an expired `Done` job is removed by a sweep and its
directory deleted when deletion succeeds. -/
theorem cleanup_removes_expired_witness :
    ((keys cDone.jobs).Nodup ∧
      lookupJob cDone.jobs "aaaaaaaa" = some cDoneJob ∧
      (cDoneJob.status = JobStatus.done ∨ cDoneJob.status = JobStatus.error) ∧
      cDoneJob.completed_at = some 10 ∧ (0 : ℚ) < 10 ∧
      (2000 : ℚ) - 10 > CLEANUP_AFTER_SECONDS) ∧
    (get_job (applyCleanup cDone 2000 (fun _ => true)) "aaaaaaaa" = none ∧
      ((fun _ => true) cDoneJob.output_dir = true →
        cDoneJob.output_dir ∉ (applyCleanup cDone 2000 (fun _ => true)).dirs)) :=
  ⟨⟨by decide, by decide, by decide, by decide, by decide,
      by norm_num [CLEANUP_AFTER_SECONDS]⟩,
    cleanup_removes_expired cDone 2000 (fun _ => true) "aaaaaaaa" cDoneJob 10
      (by decide) (by decide) (by decide) (by decide) (by decide)
      (by norm_num [CLEANUP_AFTER_SECONDS])⟩

/-! ### The collision trace: `str(uuid4())[:8]` repeats an identifier -/

/-- First creation under identifier `"00000000"`. -/
def d1 : QState := applyCreate initState "00000000" "download" [] 1

/-- Second creation drawing the SAME truncated identifier: the first
record is replaced and the identifier is enqueued a second time. -/
def d2 : QState := applyCreate d1 "00000000" "download" [] 2

/-- A worker claims the (surviving) job. -/
def d3 : QState := applyDequeueMark d2 "00000000" ["00000000"]

/-- Its handler completes: `Done`, `completed_at = 10`. -/
def d4 : QState := applyFinishOk d3 "00000000" 10 []

/-- A worker dequeues the duplicate queue entry and re-marks the
completed job `Processing` (its `completed_at` stays set). -/
def d5 : QState := applyDequeueMark d4 "00000000" []

/-- The record in `d4`. -/
def d4Job : Job :=
  { id := "00000000"
    job_type := "download"
    params := []
    status := JobStatus.done
    progress := 100
    message := "Complete!"
    result := []
    created_at := 2
    completed_at := some 10
    output_dir := outputDirOf "00000000" }

/-- The record in `d5`: `Processing` with `completed_at` still set. -/
def d5Job : Job :=
  { d4Job with status := JobStatus.processing, message := "Processing..." }

theorem reachable_d4 : Reachable hsmD d4 :=
  Reachable.step (Reachable.step (Reachable.step (Reachable.step Reachable.init
    (Step.create initState "00000000" "download" [] 1 (by decide)))
    (Step.create d1 "00000000" "download" [] 2 (by decide)))
    (Step.dequeueMark d2 "00000000" ["00000000"]
      (freshJob "00000000" "download" [] 2) (by decide) (by decide)))
    (Step.finishOk d3 "00000000"
      { freshJob "00000000" "download" [] 2 with
        status := JobStatus.processing, message := "Processing..." }
      10 50 "working" [] (by decide) (by decide) (by decide))

theorem reachable_d5 : Reachable hsmD d5 :=
  Reachable.step reachable_d4
    (Step.dequeueMark d4 "00000000" [] d4Job (by decide) (by decide))

/-! ### C9: the reaper and non-terminal jobs -/

/-- The reaper-safety property as claimed: in no reachable state does a
sweep remove a still-`Queued` or `Processing` job's record or delete its
output directory, regardless of the job's age. -/
def ReaperSparesNonTerminal : Prop :=
  ∀ (hsm : String → Bool) (s : QState) (now : ℚ) (delOk : String → Bool)
    (jid : String) (j : Job),
    Reachable hsm s → lookupJob s.jobs jid = some j →
    (j.status = JobStatus.queued ∨ j.status = JobStatus.processing) →
    lookupJob (applyCleanup s now delOk).jobs jid = some j ∧
    (j.output_dir ∈ s.dirs → j.output_dir ∈ (applyCleanup s now delOk).dirs)

/-- C9 counterexample: after an identifier collision double-enqueues
`"00000000"`, the worker re-marks the completed job `Processing` while
its old `completed_at` survives; the sweep tests only `completed_at`, so
it deletes this `Processing` job's record (and directory). -/
theorem reaper_removes_processing_job : ¬ ReaperSparesNonTerminal := by
  intro h
  have h2 := (h hsmD d5 2000 (fun _ => true) "00000000" d5Job reachable_d5
    (by decide) (Or.inr (by decide))).1
  have hsr5 : shouldRemove d5Job 2000 = true := by
    have h19 : (2000 : ℚ) - 10 > CLEANUP_AFTER_SECONDS := by
      norm_num [CLEANUP_AFTER_SECONDS]
    simp [shouldRemove, d5Job, d4Job, h19]
  have hlk5 : lookupJob (applyCleanup d5 2000 (fun _ => true)).jobs
      "00000000" = none := by
    show lookupJob (d5.jobs.filter (fun p => ! shouldRemove p.2 2000))
      "00000000" = none
    rw [show d5.jobs = [("00000000", d5Job)] from by decide]
    simp [List.filter, hsr5, lookupJob]
  rw [hlk5] at h2
  exact Option.noConfusion h2

/-- C9 amended: along collision-free executions (every generated
identifier fresh — not guaranteed by `str(uuid4())[:8]`), a sweep never
removes a non-terminal job's record nor deletes its output directory,
regardless of the job's age. -/
theorem cleanup_spares_nonterminal (hsm : String → Bool) (s : QState)
    (now : ℚ) (delOk : String → Bool) (jid : String) (j : Job)
    (hreach : ReachableF hsm s) (hj : lookupJob s.jobs jid = some j)
    (hnt : j.status = JobStatus.queued ∨ j.status = JobStatus.processing) :
    lookupJob (applyCleanup s now delOk).jobs jid = some j ∧
    (j.output_dir ∈ s.dirs → j.output_dir ∈ (applyCleanup s now delOk).dirs) := by
  have inv := invF_of_reachableF hreach
  have hnone : j.completed_at = none := by
    cases hsome : j.completed_at.isSome
    · exact Option.not_isSome_iff_eq_none.mp (by simp [hsome])
    · rcases inv.compTerm jid j (mem_of_lookupJob hj) hsome with h | h <;>
        rcases hnt with h2 | h2 <;> rw [h2] at h <;> exact JobStatus.noConfusion h
  have hsr : shouldRemove j now = false := by
    simp only [shouldRemove, hnone]
  constructor
  · exact lookupJob_filter_keep hj (by simp [hsr])
  · intro hmem
    apply List.mem_filter.mpr
    refine ⟨hmem, ?_⟩
    have hany : ((s.jobs.filter (fun p => shouldRemove p.2 now)).any
        (fun p => p.2.output_dir == j.output_dir)) = false := by
      rw [List.any_eq_false]
      rintro ⟨k2, j2⟩ hx
      obtain ⟨hxmem, hxsr⟩ := List.mem_filter.mp hx
      intro hbeq
      have hdirs : j2.output_dir = j.output_dir := by
        simpa using hbeq
      have hk2 : k2 = jid :=
        outputDirOf_inj (by
          rw [← inv.dirOk k2 j2 hxmem, ← inv.dirOk jid j (mem_of_lookupJob hj),
            hdirs])
      rw [hk2] at hxmem
      have hlk2 := lookupJob_of_mem_nodup inv.nodupKeys hxmem
      rw [hj] at hlk2
      have he : j2 = j := by injection hlk2.symm
      rw [he, hsr] at hxsr
      exact Bool.noConfusion hxsr
    simp [hany]

/-- C9 amended witness: a sweep leaves a `Processing` job in place. -/
theorem cleanup_spares_nonterminal_witness :
    (lookupJob cProc.jobs "aaaaaaaa" = some cProcJob ∧
      (cProcJob.status = JobStatus.queued ∨
        cProcJob.status = JobStatus.processing)) ∧
    (lookupJob (applyCleanup cProc 2000 (fun _ => true)).jobs "aaaaaaaa" =
        some cProcJob ∧
      (cProcJob.output_dir ∈ cProc.dirs →
        cProcJob.output_dir ∈ (applyCleanup cProc 2000 (fun _ => true)).dirs)) :=
  ⟨⟨by decide, by decide⟩,
    cleanup_spares_nonterminal hsmD cProc 2000 (fun _ => true) "aaaaaaaa"
      cProcJob
      (ReachableF.step (ReachableF.step ReachableF.init
          (Step.create initState "aaaaaaaa" "download" [] 1 (by decide))
          (by decide))
        (Step.dequeueMark cS1 "aaaaaaaa" []
          (freshJob "aaaaaaaa" "download" [] 1) (by decide) (by decide))
        trivial)
      (by decide) (by decide)⟩

/-! ### Lookup through each operation -/

theorem lookup_applyCreate_other {s : QState} {jid0 jid jtype : String}
    {params : List (String × String)} {t : ℚ} (h : jid ≠ jid0) :
    lookupJob (applyCreate s jid0 jtype params t).jobs jid =
      lookupJob s.jobs jid :=
  lookupJob_dictInsert_other _ _ h

theorem lookup_applyDequeueMark_self {s : QState} {jid : String} {j : Job}
    (rest : List String) (hj : lookupJob s.jobs jid = some j) :
    lookupJob (applyDequeueMark s jid rest).jobs jid =
      some { j with
        status := JobStatus.processing,
        message := "Processing..." } :=
  lookupJob_updateJob_self _ hj

theorem lookup_applyDequeueMark_other {s : QState} {jid0 jid : String}
    (rest : List String) (h : jid ≠ jid0) :
    lookupJob (applyDequeueMark s jid0 rest).jobs jid =
      lookupJob s.jobs jid :=
  lookupJob_updateJob_other _ h

theorem lookup_applyNoHandler_self {s : QState} {jid : String} {j : Job}
    (hj : lookupJob s.jobs jid = some j) :
    lookupJob (applyNoHandler s jid).jobs jid =
      some { j with
        status := JobStatus.error,
        message := "No handler for job type: " ++ j.job_type } :=
  lookupJob_updateJob_self _ hj

theorem lookup_applyNoHandler_other {s : QState} {jid0 jid : String}
    (h : jid ≠ jid0) :
    lookupJob (applyNoHandler s jid0).jobs jid = lookupJob s.jobs jid :=
  lookupJob_updateJob_other _ h

theorem lookup_applyFinishOk_self {s : QState} {jid : String} {j : Job}
    (t : ℚ) (r : List (String × String))
    (hj : lookupJob s.jobs jid = some j) :
    lookupJob (applyFinishOk s jid t r).jobs jid =
      some { j with
        status := JobStatus.done,
        progress := 100,
        completed_at := some t,
        message := "Complete!",
        result := r } :=
  lookupJob_updateJob_self _ hj

theorem lookup_applyFinishOk_other {s : QState} {jid0 jid : String}
    (t : ℚ) (r : List (String × String)) (h : jid ≠ jid0) :
    lookupJob (applyFinishOk s jid0 t r).jobs jid = lookupJob s.jobs jid :=
  lookupJob_updateJob_other _ h

theorem lookup_applyFinishFail_self {s : QState} {jid : String} {j : Job}
    (t : ℚ) (emsg : String) (p : ℚ) (r : List (String × String))
    (hj : lookupJob s.jobs jid = some j) :
    lookupJob (applyFinishFail s jid t emsg p r).jobs jid =
      some { j with
        status := JobStatus.error,
        message := emsg,
        completed_at := some t,
        progress := p,
        result := r } :=
  lookupJob_updateJob_self _ hj

theorem lookup_applyFinishFail_other {s : QState} {jid0 jid : String}
    (t : ℚ) (emsg : String) (p : ℚ) (r : List (String × String))
    (h : jid ≠ jid0) :
    lookupJob (applyFinishFail s jid0 t emsg p r).jobs jid =
      lookupJob s.jobs jid :=
  lookupJob_updateJob_other _ h

/-! ### C2: the status state machine -/

/-- The status state machine as claimed: along every step out of a
reachable state, the record observed under an identifier before and after
moves only along `Queued → Processing → Done | Error` (or stays put): in
particular nothing leaves `Done`/`Error` and nothing re-enters `Queued`. -/
def StatusMachineRespected : Prop :=
  ∀ (hsm : String → Bool) (l : Label) (s s' : QState) (jid : String)
    (j j' : Job),
    Reachable hsm s → Step hsm l s s' →
    lookupJob s.jobs jid = some j → lookupJob s'.jobs jid = some j' →
    StatusEdge j.status j'.status

/-- C2 counterexample: an identifier collision enqueues `"00000000"`
twice; after the job completes (`Done`), a worker dequeues the duplicate
entry and unconditionally re-marks the record `Processing`
(`job.status = PROCESSING` in `_worker` has no status guard), a
`Done → Processing` transition. -/
theorem done_job_reprocessed : ¬ StatusMachineRespected := by
  intro h
  have hedge := h hsmD Label.dequeue d4 d5 "00000000" d4Job d5Job reachable_d4
    (Step.dequeueMark d4 "00000000" [] d4Job (by decide) (by decide))
    (by decide) (by decide)
  exact absurd hedge (by decide)

/-- C2 amended: along collision-free executions (every generated
identifier fresh — which the 8-character uuid truncation does not
guarantee), every step moves each record's status only along
`Queued → Processing → {Done, Error}` or leaves it unchanged. -/
theorem status_machine_collision_free (hsm : String → Bool) (l : Label)
    (s s' : QState) (jid : String) (j j' : Job)
    (hreach : ReachableF hsm s) (hstep : Step hsm l s s')
    (hfresh : LabelFresh l s)
    (hj : lookupJob s.jobs jid = some j)
    (hj' : lookupJob s'.jobs jid = some j') :
    StatusEdge j.status j'.status := by
  have inv := invF_of_reachableF hreach
  cases hstep with
  | create s0 jid0 jtype params t hlen =>
      by_cases hk : jid = jid0
      · subst hk
        rw [(hfresh : lookupJob s.jobs jid = none)] at hj
        exact Option.noConfusion hj
      · rw [lookup_applyCreate_other hk, hj] at hj'
        have he : j = j' := by injection hj'
        rw [← he]
        exact Or.inl rfl
  | dequeueSkip s0 jid0 rest hq habs =>
      have hj'2 : lookupJob s.jobs jid = some j' := hj'
      rw [hj] at hj'2
      have he : j = j' := by injection hj'2
      rw [← he]
      exact Or.inl rfl
  | dequeueMark s0 jid0 rest j0 hq hj0 =>
      by_cases hk : jid = jid0
      · subst hk
        obtain ⟨jq, hjq, hq2⟩ := inv.queueQueued jid (hq ▸ List.mem_cons_self _ _)
        rw [hj] at hjq
        have he1 : j = jq := by injection hjq
        have hqj : j.status = JobStatus.queued := by rw [he1]; exact hq2
        rw [lookup_applyDequeueMark_self rest hj] at hj'
        have he2 : ({ j with
            status := JobStatus.processing,
            message := "Processing..." } : Job) = j' := by injection hj'
        rw [← he2]
        exact Or.inr (Or.inl ⟨hqj, rfl⟩)
      · rw [lookup_applyDequeueMark_other rest hk, hj] at hj'
        have he : j = j' := by injection hj'
        rw [← he]
        exact Or.inl rfl
  | noHandler s0 jid0 j0 hj0 hproc hh =>
      by_cases hk : jid = jid0
      · subst hk
        rw [hj] at hj0
        have he0 : j = j0 := by injection hj0
        have hpj : j.status = JobStatus.processing := by rw [he0]; exact hproc
        rw [lookup_applyNoHandler_self hj] at hj'
        have he2 : ({ j with
            status := JobStatus.error,
            message := "No handler for job type: " ++ j.job_type } : Job) = j' := by
          injection hj'
        rw [← he2]
        exact Or.inr (Or.inr (Or.inr ⟨hpj, rfl⟩))
      · rw [lookup_applyNoHandler_other hk, hj] at hj'
        have he : j = j' := by injection hj'
        rw [← he]
        exact Or.inl rfl
  | finishOk s0 jid0 j0 t p m r hj0 hproc hh =>
      by_cases hk : jid = jid0
      · subst hk
        rw [hj] at hj0
        have he0 : j = j0 := by injection hj0
        have hpj : j.status = JobStatus.processing := by rw [he0]; exact hproc
        rw [lookup_applyFinishOk_self t r hj] at hj'
        have he2 : ({ j with
            status := JobStatus.done,
            progress := 100,
            completed_at := some t,
            message := "Complete!",
            result := r } : Job) = j' := by injection hj'
        rw [← he2]
        exact Or.inr (Or.inr (Or.inl ⟨hpj, rfl⟩))
      · rw [lookup_applyFinishOk_other t r hk, hj] at hj'
        have he : j = j' := by injection hj'
        rw [← he]
        exact Or.inl rfl
  | finishFail s0 jid0 j0 t emsg p r hj0 hproc hh =>
      by_cases hk : jid = jid0
      · subst hk
        rw [hj] at hj0
        have he0 : j = j0 := by injection hj0
        have hpj : j.status = JobStatus.processing := by rw [he0]; exact hproc
        rw [lookup_applyFinishFail_self t emsg p r hj] at hj'
        have he2 : ({ j with
            status := JobStatus.error,
            message := emsg,
            completed_at := some t,
            progress := p,
            result := r } : Job) = j' := by injection hj'
        rw [← he2]
        exact Or.inr (Or.inr (Or.inr ⟨hpj, rfl⟩))
      · rw [lookup_applyFinishFail_other t emsg p r hk, hj] at hj'
        have he : j = j' := by injection hj'
        rw [← he]
        exact Or.inl rfl
  | cleanup s0 now delOk =>
      cases hsr : shouldRemove j now
      · have hk : lookupJob (s.jobs.filter (fun p => ! shouldRemove p.2 now))
            jid = some j := lookupJob_filter_keep hj (by simp [hsr])
        have hj'2 : lookupJob (s.jobs.filter (fun p => ! shouldRemove p.2 now))
            jid = some j' := hj'
        rw [hk] at hj'2
        have he : j = j' := by injection hj'2
        rw [← he]
        exact Or.inl rfl
      · have hk : lookupJob (s.jobs.filter (fun p => ! shouldRemove p.2 now))
            jid = none := lookupJob_filter_drop inv.nodupKeys hj (by simp [hsr])
        have hj'2 : lookupJob (s.jobs.filter (fun p => ! shouldRemove p.2 now))
            jid = some j' := hj'
        rw [hk] at hj'2
        exact Option.noConfusion hj'2

/-- C2 amended witness: the admitted job is claimed,
a `Queued → Processing` edge. -/
theorem status_machine_collision_free_witness :
    (lookupJob cS1.jobs "aaaaaaaa" = some (freshJob "aaaaaaaa" "download" [] 1) ∧
      lookupJob cProc.jobs "aaaaaaaa" = some cProcJob) ∧
    StatusEdge (freshJob "aaaaaaaa" "download" [] 1).status cProcJob.status :=
  ⟨⟨by decide, by decide⟩,
    status_machine_collision_free hsmD Label.dequeue cS1 cProc "aaaaaaaa"
      (freshJob "aaaaaaaa" "download" [] 1) cProcJob
      (ReachableF.step ReachableF.init
        (Step.create initState "aaaaaaaa" "download" [] 1 (by decide))
        (by decide))
      (Step.dequeueMark cS1 "aaaaaaaa" []
        (freshJob "aaaaaaaa" "download" [] 1) (by decide) (by decide))
      trivial (by decide) (by decide)⟩

/-! ### C3: completed_at on the missing-handler path -/

/-- The state after the `"stems"` job hits the missing-handler branch. -/
def cErr : QState := applyNoHandler cProcB "aaaaaaaa"

/-- Its record there. -/
def cErrJob : Job :=
  { freshJob "aaaaaaaa" "stems" [] 1 with
    status := JobStatus.error,
    message := "No handler for job type: stems" }

/-- C3 exhibit (code bug): the missing-handler branch of `_worker` sets
`status = ERROR` without setting `completed_at` — reachable state with a
terminal (`Error`) record whose `completed_at` is `None`; consequently
the reaper's test (`if job.completed_at and ...`) never selects it, at
any sweep time (5000 shown), so the record and its directory leak. -/
theorem no_handler_error_lacks_completed_at :
    Reachable hsmD cErr ∧
    lookupJob cErr.jobs "aaaaaaaa" = some cErrJob ∧
    cErrJob.status = JobStatus.error ∧
    cErrJob.completed_at = none ∧
    shouldRemove cErrJob 5000 = false :=
  ⟨Reachable.step (Reachable.step (Reachable.step Reachable.init
      (Step.create initState "aaaaaaaa" "stems" [] 1 (by decide)))
      (Step.dequeueMark cS1B "aaaaaaaa" [] (freshJob "aaaaaaaa" "stems" [] 1)
        (by decide) (by decide)))
      (Step.noHandler cProcB "aaaaaaaa" cProcJobB (by decide) (by decide)
        (by decide)),
    by decide, by decide, by decide, by decide⟩

/-! ### C8: identifier uniqueness at creation -/

/-- The creation-uniqueness property as claimed: storing a newly created
record never replaces or loses an existing record, for any generated
8-character identifier, in any reachable state. -/
def CreateNeverReplaces : Prop :=
  ∀ (hsm : String → Bool) (s : QState) (jid jtype : String)
    (params : List (String × String)) (t : ℚ),
    Reachable hsm s → jid.length = 8 →
    ∀ k j, lookupJob s.jobs k = some j →
      lookupJob (applyCreate s jid jtype params t).jobs k = some j

/-- C8 counterexample: `create_job` draws `str(uuid4())[:8]` and stores
with `jobs[job_id] = job` without any freshness check; when the 8-char
identifier repeats (here `"00000000"` twice), the existing record is
silently replaced. -/
theorem create_collision_replaces_record : ¬ CreateNeverReplaces := by
  intro h
  have hr : Reachable hsmD d1 :=
    Reachable.step Reachable.init
      (Step.create initState "00000000" "download" [] 1 (by decide))
  have h2 := h hsmD d1 "00000000" "download" [] 2 hr (by decide) "00000000"
    (freshJob "00000000" "download" [] 1) (by decide)
  exact absurd h2 (by decide)

/-- C8 amended: when the generated identifier is fresh — the only
guarantee being probabilistic, as the source never checks — `create_job`
adds the new `Queued` record, preserves every existing record, and
appends the identifier to the queue; a colliding identifier instead
replaces the existing record. -/
theorem create_fresh_preserves (s : QState) (jid jtype : String)
    (params : List (String × String)) (t : ℚ)
    (hfresh : lookupJob s.jobs jid = none) :
    (∀ k j, lookupJob s.jobs k = some j →
      lookupJob (applyCreate s jid jtype params t).jobs k = some j) ∧
    lookupJob (applyCreate s jid jtype params t).jobs jid =
      some (freshJob jid jtype params t) ∧
    (applyCreate s jid jtype params t).queue = s.queue ++ [jid] := by
  refine ⟨?_, lookupJob_dictInsert_self _ _ _, rfl⟩
  intro k j hk
  have hne : k ≠ jid := by
    intro he
    rw [he, hfresh] at hk
    exact Option.noConfusion hk
  rw [lookup_applyCreate_other hne]
  exact hk

/-- C8 amended witness: a fresh creation on top of `d1` keeps the old
record and adds the new one. -/
theorem create_fresh_preserves_witness :
    lookupJob d1.jobs "bbbbbbbb" = none ∧
    ((∀ k j, lookupJob d1.jobs k = some j →
        lookupJob (applyCreate d1 "bbbbbbbb" "download" [] 2).jobs k = some j) ∧
      lookupJob (applyCreate d1 "bbbbbbbb" "download" [] 2).jobs "bbbbbbbb" =
        some (freshJob "bbbbbbbb" "download" [] 2) ∧
      (applyCreate d1 "bbbbbbbb" "download" [] 2).queue =
        d1.queue ++ ["bbbbbbbb"]) :=
  ⟨by decide, create_fresh_preserves d1 "bbbbbbbb" "download" [] 2 (by decide)⟩

end Ytdlstem
